import Mathlib

set_option linter.unusedVariables false

/-!
Shallow embedding of `src/ffmpeg_tool.py` (griptapeOsipa/griptape_grabBag).

The repository is a single Python file exposing five FFmpeg tool adapters.
Numbers are modelled by `ℚ` (exact arithmetic, as the specification states
its properties "in exact arithmetic").  Python values that may be `int` or
`float` are modelled by the `Value` type.  Uncaught Python exceptions are
modelled by the `Except PyExn` layer; the structured artifact results
(`InfoArtifact`, `TextArtifact`, `ErrorArtifact`) by `Artifact`.  The
`while` loop of the fixed-duration branch and the extension-stripping loop
of `extract_audio` may diverge, so they are modelled with explicit fuel:
a result of `none` means the loop has not finished within the given fuel,
and divergence is expressed as returning `none` for every fuel.

The filesystem is modelled as the list of existing paths, and each
external `subprocess.run` invocation is counted in the second component of
a tool's result (the exit status of an invocation is an oracle argument).
Deletion of pre-existing output files is not tracked, and the argument
vectors handed to ffmpeg are not modelled: no claim depends on them.
Error-message strings keep the source wording with quotes/apostrophes
elided.
-/

/-- Model of a segment dict `{"start": ..., "end": ...}` built by
`calculate_segments`. -/
structure Segment where
  start : ℚ
  «end» : ℚ
deriving DecidableEq, Repr

/-- Model of a Python parameter that the schema types as `Or(int, float)`. -/
inductive Value where
  | int (n : ℤ)
  | float (q : ℚ)
deriving DecidableEq, Repr

/-- Python truthiness test `not value` for an `int`/`float` value:
only the number zero is falsy. -/
def Value.isZero : Value → Bool
  | .int n => n == 0
  | .float q => q == 0

/-- The numeric content of a value (used where Python arithmetic accepts
either an `int` or a `float`). -/
def Value.toRat : Value → ℚ
  | .int n => (n : ℚ)
  | .float q => q

/-- Uncaught Python exceptions that the source can raise. -/
inductive PyExn where
  | typeError
  | attributeError
deriving DecidableEq, Repr

/-- Model of the griptape artifact results returned by the tools. -/
inductive Artifact where
  | info (segments : List Segment)
  | infoDuration (duration : ℚ)
  | text (message : String)
  | error (message : String)
deriving DecidableEq, Repr

/-- Message of line 140 of the source (quotes elided). -/
def missingMsg : String := "Missing required inputs: duration, method, or value."

/-- Message of line 158 of the source (quotes elided). -/
def invalidMethodMsg (method : String) : String :=
  "Invalid method: " ++ method ++ ". Use equal or duration."

/-- The `method == "equal"` branch of `calculate_segments` (lines 143-149):
`segment_duration = duration / num_segments`, then for `i in
range(num_segments)` append `{start: i * segment_duration, end:
min(start + segment_duration, duration)}`.  `range` of a negative count is
empty, hence `Int.toNat`. -/
def equalSegments (duration : ℚ) (n : ℤ) : List Segment :=
  (List.range n.toNat).map fun i : ℕ =>
    { start := (i : ℚ) * (duration / (n : ℚ))
      «end» := min ((i : ℚ) * (duration / (n : ℚ)) + duration / (n : ℚ)) duration }

/-- The `while start < duration` loop of the `method == "duration"` branch
(lines 152-156), with explicit fuel: each iteration appends
`{start, min(start + segment_duration, duration)}` and advances `start`
by `segment_duration`.  `none` means the fuel ran out with the loop still
running. -/
def segLoop : Nat → ℚ → ℚ → ℚ → Option (List Segment)
  | 0, _, _, _ => none
  | fuel + 1, start, segDur, duration =>
    if start < duration then
      (segLoop fuel (start + segDur) segDur duration).map
        (fun rest => { start := start, «end» := min (start + segDur) duration } :: rest)
    else
      some []

/-- Model of `VideoSegmentCalculatorTool.calculate_segments` (lines
130-160).  The guard is Python `if not duration or not method or not
value`, which only rejects zero numbers and the empty string.  In the
`equal` branch, `range(num_segments)` raises `TypeError` when the value is
a float.  The result is `none` exactly when the `duration` loop diverges
within the given fuel. -/
def calcSegments (fuel : Nat) (duration : ℚ) (method : String) (value : Value) :
    Option (Except PyExn Artifact) :=
  if duration = 0 ∨ method = "" ∨ value.isZero then
    some (.ok (.error missingMsg))
  else if method = "equal" then
    match value with
    | .int n => some (.ok (.info (equalSegments duration n)))
    | .float _ => some (.error .typeError)
  else if method = "duration" then
    match segLoop fuel 0 value.toRat duration with
    | none => none
    | some segs => some (.ok (.info segs))
  else
    some (.ok (.error (invalidMethodMsg method)))

/-- Index of the last occurrence of `c` in the list, as Python `str.rfind`
(-1 when absent). -/
def rfindAux (c : Char) : List Char → Nat → Int → Int
  | [], _, acc => acc
  | x :: xs, i, acc => rfindAux c xs (i + 1) (if x = c then (i : Int) else acc)

/-- Python `p.rfind(c)`. -/
def rfind (p : List Char) (c : Char) : Int := rfindAux c p 0 (-1)

/-- Model of `posixpath.splitext`: split at the last dot that comes after
the last path separator, provided some non-dot character of the final
component precedes it (leading dots of the basename are part of the
root). -/
def pySplitExt (p : String) : String × String :=
  let l := p.toList
  let sepIndex := rfind l '/'
  let dotIndex := rfind l '.'
  if sepIndex < dotIndex then
    let between := (l.drop (sepIndex + 1).toNat).take (dotIndex - sepIndex - 1).toNat
    if between.any (fun c => c ≠ '.') then
      (String.mk (l.take dotIndex.toNat), String.mk (l.drop dotIndex.toNat))
    else
      (p, "")
  else
    (p, "")

/-- Model of `posixpath.split`: cut after the last separator; the head is
stripped of trailing separators unless it consists only of separators. -/
def pySplit (p : String) : String × String :=
  let l := p.toList
  let i := (rfind l '/' + 1).toNat
  let head := l.take i
  let tail := l.drop i
  let head2 :=
    if head ≠ [] ∧ head.any (fun c => c ≠ '/') then
      (head.reverse.dropWhile (fun c => c = '/')).reverse
    else head
  (String.mk head2, String.mk tail)

/-- Model of `posixpath.join` for two components (`b.startswith(sep)` is
the first character being the separator, `a.endswith(sep)` the last). -/
def pyJoin (a b : String) : String :=
  if b.toList.head? = some '/' then b
  else if a = "" ∨ a.toList.getLast? = some '/' then a ++ b
  else a ++ "/" ++ b

/-- Python format `f"{i:02}"` for a non-negative index: left-pad the
decimal digits with zeros to width two. -/
def pad2 (i : Nat) : String :=
  if i < 10 then "0" ++ toString i else toString i

/-- Python `name.lower().endswith(".mp3")`. -/
def lowerEndsWithMp3 (name : String) : Bool :=
  ['.', 'm', 'p', '3'].isSuffixOf (name.toList.map Char.toLower)

/-- The extension-cleanup loop of `extract_audio` (lines 262-267), with
explicit fuel: while the lowered name ends with ".mp3", replace the name
by its `splitext` root.  `none` means the fuel ran out with the loop still
running. -/
def stripLoop : Nat → String → Option String
  | 0, _ => none
  | fuel + 1, name =>
    if lowerEndsWithMp3 name then stripLoop fuel (pySplitExt name).1
    else some name

/-- Model of `VideoInfoTool.get_video_info` (lines 84-105).  `fs` is the
set of existing paths; `probe` is the parsed ffprobe output (`none` for
unparseable output, in which case the `except` clause returns an
`ErrorArtifact`).  The second component counts subprocess invocations. -/
def getVideoInfo (fs : List String) (mov : String) (probe : Option ℚ) :
    Except PyExn Artifact × Nat :=
  if mov ∈ fs then
    match probe with
    | some q => (.ok (.infoDuration q), 1)
    | none => (.ok (.error "Error retrieving video duration"), 1)
  else
    (.ok (.error ("File not found: " ++ mov)), 0)

/-- Model of `VideoSplitterTool.split_video` (lines 185-223).  `outName`
is the optional `output_name` parameter, defaulted to "segment"; `exits`
gives the exit status of the per-segment ffmpeg invocations, which the
source never inspects (line 220 ignores the completed process).  One
subprocess runs per segment. -/
def splitVideo (fs : List String) (mov : String) (segments : List Segment)
    (outName : Option String) (exits : Nat → Bool) : Except PyExn Artifact × Nat :=
  let outname := outName.getD "segment"
  if mov ∉ fs then
    (.ok (.error ("Error: File not found: " ++ mov)), 0)
  else if segments = [] then
    (.ok (.error "Error: No segments provided."), 0)
  else
    let stbExt := pySplitExt mov
    let pthNam := pySplit stbExt.1
    let outputFiles := (List.range segments.length).map fun k =>
      let sfx := if segments.length > 1 then "_" ++ pad2 (k + 1) ++ stbExt.2 else stbExt.2
      pyJoin pthNam.1 (pthNam.2 ++ "_" ++ outname ++ sfx)
    (.ok (.text ("Clips successfully created: " ++ String.intercalate ", " outputFiles)),
      segments.length)

/-- Message of line 290 of the source (diagnostic text elided). -/
def audioFailMsg : String := "Error extracting audio"

/-- Model of `AudioExtractorTool.extract_audio` (lines 244-290).  With no
`output_name`, line 263 evaluates `None.lower()` and raises
`AttributeError` (before any subprocess runs).  Otherwise the cleanup
loop runs (it may diverge, hence the fuel), the destination is derived,
and the checked ffmpeg invocation turns a non-zero exit (`exitOk =
false`) into an `ErrorArtifact`. -/
def extractAudio (fs : List String) (mov : String) (outName : Option String)
    (exitOk : Bool) (fuel : Nat) : Option (Except PyExn Artifact × Nat) :=
  if mov ∉ fs then
    some (.ok (.error ("Error: File not found: " ++ mov)), 0)
  else
    let stbExt := pySplitExt mov
    let pthNam := pySplit stbExt.1
    match outName with
    | none => some (.error .attributeError, 0)
    | some name =>
      match stripLoop fuel name with
      | none => none
      | some name2 =>
        let out :=
          if name2 = "" then pyJoin pthNam.1 (pthNam.2 ++ ".mp3")
          else pyJoin pthNam.1 (name2 ++ ".mp3")
        if exitOk then some (.ok (.text ("Audio successfully extracted: " ++ out)), 1)
        else some (.ok (.error audioFailMsg), 1)

/-- Message of line 350 of the source (diagnostic text elided). -/
def overlayFailMsg : String := "Error adding timecode overlay"

/-- Model of `VideoTimecodeOverlayTool.add_timecode_overlay` (lines
311-350).  `outName` defaults to "_timecoded"; the checked ffmpeg
invocation turns a non-zero exit into an `ErrorArtifact`. -/
def addTimecodeOverlay (fs : List String) (mov : String) (outName : Option String)
    (exitOk : Bool) : Except PyExn Artifact × Nat :=
  let outname := outName.getD "_timecoded"
  if mov ∉ fs then
    (.ok (.error ("Error: File not found: " ++ mov)), 0)
  else
    let stbExt := pySplitExt mov
    let pthNam := pySplit stbExt.1
    let out := pyJoin pthNam.1 (pthNam.2 ++ outname ++ stbExt.2)
    if exitOk then (.ok (.text ("Timecode overlay added: " ++ out)), 1)
    else (.ok (.error overlayFailMsg), 1)

/-- Equality of tool outcomes is decidable (needed to evaluate the models
on concrete inputs). -/
instance : DecidableEq (Except PyExn Artifact)
  | .ok a, .ok b =>
    if h : a = b then .isTrue (by rw [h]) else .isFalse (by intro hh; cases hh; exact h rfl)
  | .ok a, .error b => .isFalse (by intro hh; cases hh)
  | .error a, .ok b => .isFalse (by intro hh; cases hh)
  | .error a, .error b =>
    if h : a = b then .isTrue (by rw [h]) else .isFalse (by intro hh; cases hh; exact h rfl)

/-- The partition property the specification asserts of a plan: first
start is 0, every segment is non-empty, adjacent segments are contiguous,
and the last end equals the duration. -/
def contiguousPartition (segs : List Segment) (d : ℚ) : Prop :=
  segs.head?.map Segment.start = some 0 ∧
  (∀ s ∈ segs, s.start < s.«end») ∧
  List.Chain' (fun a b => a.«end» = b.start) segs ∧
  segs.getLast?.map Segment.«end» = some d

/-- A planning request the specification calls valid: method "equal" with
an integer count at least 1, or method "duration" with a positive
length. -/
def validRequest (m : String) (v : Value) : Prop :=
  (m = "equal" ∧ ∃ n : ℤ, v = .int n ∧ 1 ≤ n) ∨ (m = "duration" ∧ 0 < v.toRat)

/-- Divergence of a planning request: no fuel suffices. -/
def calcDiverges (d : ℚ) (m : String) (v : Value) : Prop :=
  ∀ fuel, calcSegments fuel d m v = none

/-- Closed form of the fixed-duration loop started at `s`:
`⌈(d - s) / len⌉` segments of the form `(s + i·len, min (s + i·len + len, d))`. -/
def fixedFrom (d len s : ℚ) : List Segment :=
  (List.range (⌈(d - s) / len⌉).toNat).map fun i : ℕ =>
    { start := s + (i : ℚ) * len, «end» := min (s + (i : ℚ) * len + len) d }

/-- Closed form of the whole fixed-duration branch. -/
def fixedSegments (d len : ℚ) : List Segment := fixedFrom d len 0

/-- A value with positive numeric content is not Python-falsy. -/
theorem Value.isZero_eq_false {v : Value} (h : 0 < v.toRat) : v.isZero = false := by
  cases v with
  | int n =>
    simp only [Value.toRat] at h
    have : n ≠ 0 := by exact_mod_cast h.ne'
    simp [Value.isZero, this]
  | float q =>
    simp only [Value.toRat] at h
    simp [Value.isZero, h.ne']

/-- One loop iteration removes exactly one from the remaining-iteration
count when the guard holds. -/
theorem ceil_toNat_step (d len s : ℚ) (hl : 0 < len) (hs : s < d) :
    (⌈(d - s) / len⌉).toNat = (⌈(d - (s + len)) / len⌉).toNat + 1 := by
  have hx : (d - (s + len)) / len = (d - s) / len - 1 := by
    field_simp
    ring
  have hpos : 0 < ⌈(d - s) / len⌉ := Int.ceil_pos.mpr (div_pos (sub_pos.mpr hs) hl)
  rw [hx, Int.ceil_sub_one]
  omega

/-- When the guard fails the remaining-iteration count is zero. -/
theorem ceil_toNat_zero (d len s : ℚ) (hl : 0 < len) (hs : ¬ s < d) :
    (⌈(d - s) / len⌉).toNat = 0 := by
  have hx : (d - s) / len ≤ 0 :=
    div_nonpos_iff.mpr (Or.inr ⟨sub_nonpos.mpr (not_lt.mp hs), hl.le⟩)
  have : ⌈(d - s) / len⌉ ≤ 0 := by
    have h0 : (d - s) / len ≤ ((0 : ℤ) : ℚ) := by exact_mod_cast hx
    exact Int.ceil_le.mpr h0
  omega

/-- The closed form is empty when the guard fails. -/
theorem fixedFrom_nil (d len s : ℚ) (hl : 0 < len) (hs : ¬ s < d) :
    fixedFrom d len s = [] := by
  rw [fixedFrom, ceil_toNat_zero d len s hl hs]
  rfl

/-- The closed form unrolls one iteration when the guard holds. -/
theorem fixedFrom_cons (d len s : ℚ) (hl : 0 < len) (hs : s < d) :
    fixedFrom d len s =
      { start := s, «end» := min (s + len) d } :: fixedFrom d len (s + len) := by
  rw [fixedFrom, fixedFrom, ceil_toNat_step d len s hl hs, List.range_succ_eq_map, List.map_cons,
    List.map_map]
  congr 1
  · simp
  · refine List.map_congr_left fun i _ => ?_
    simp only [Function.comp_apply, Segment.mk.injEq]
    constructor
    · push_cast
      ring
    · congr 1
      push_cast
      ring

/-- Whatever list the fueled loop returns is the closed form. -/
theorem segLoop_some_eq (d len : ℚ) (hl : 0 < len) :
    ∀ fuel s segs, segLoop fuel s len d = some segs → segs = fixedFrom d len s := by
  intro fuel
  induction fuel with
  | zero => intro s segs h; simp [segLoop] at h
  | succ fuel ih =>
    intro s segs h
    by_cases hs : s < d
    · rw [segLoop, if_pos hs] at h
      obtain ⟨rest, hrest, hsegs⟩ := Option.map_eq_some'.mp h
      rw [← hsegs, fixedFrom_cons d len s hl hs, ih _ _ hrest]
    · rw [segLoop, if_neg hs] at h
      rw [fixedFrom_nil d len s hl hs]
      exact (Option.some_injective _ h).symm

/-- With enough fuel the loop finishes and returns the closed form. -/
theorem segLoop_eq (d len : ℚ) (hl : 0 < len) :
    ∀ fuel s, (⌈(d - s) / len⌉).toNat < fuel →
      segLoop fuel s len d = some (fixedFrom d len s) := by
  intro fuel
  induction fuel with
  | zero => intro s h; omega
  | succ fuel ih =>
    intro s h
    by_cases hs : s < d
    · have hstep := ceil_toNat_step d len s hl hs
      have hrec := ih (s + len) (by omega)
      rw [segLoop, if_pos hs, hrec, Option.map_some', fixedFrom_cons d len s hl hs]
    · rw [segLoop, if_neg hs, fixedFrom_nil d len s hl hs]

/-- The whole fixed-duration branch as a plain range-map. -/
theorem fixedSegments_eq (d len : ℚ) :
    fixedSegments d len = (List.range (⌈d / len⌉).toNat).map fun i : ℕ =>
      { start := (i : ℚ) * len, «end» := min ((i : ℚ) * len + len) d } := by
  simp [fixedSegments, fixedFrom]

/-- Unfolding of `calculate_segments` on the equal branch with an integer
count: the guard passes whenever the duration and the count are
non-zero. -/
theorem calcSegments_equal_int (fuel : Nat) (d : ℚ) (n : ℤ) (hd : d ≠ 0) (hn : n ≠ 0) :
    calcSegments fuel d "equal" (.int n) = some (.ok (.info (equalSegments d n))) := by
  have h1 : ¬ (d = 0 ∨ ("equal" : String) = "" ∨ (Value.int n).isZero = true) := by
    push_neg
    exact ⟨hd, by simp, by simp [Value.isZero, hn]⟩
  rw [calcSegments, if_neg h1, if_pos rfl]

/-- The equal-parts plan is a contiguous partition of `[0, d]`. -/
theorem equalSegments_partition (d : ℚ) (n : ℤ) (hd : 0 < d) (hn : 1 ≤ n) :
    contiguousPartition (equalSegments d n) d := by
  have hcast : ((n.toNat : ℚ)) = (n : ℚ) := by
    have h := Int.toNat_of_nonneg (show (0 : ℤ) ≤ n by omega)
    exact_mod_cast congrArg (fun z : ℤ => (z : ℚ)) h
  have hn0 : (0 : ℚ) < (n : ℚ) := by exact_mod_cast (by omega : (0 : ℤ) < n)
  have hL : 0 < d / (n : ℚ) := div_pos hd hn0
  have hNd : ((n.toNat : ℚ)) * (d / (n : ℚ)) = d := by
    rw [hcast]
    field_simp
  obtain ⟨m, hm⟩ : ∃ m, n.toNat = m + 1 := ⟨n.toNat - 1, by omega⟩
  refine ⟨?_, ?_, ?_, ?_⟩
  · rw [equalSegments, hm, List.range_succ_eq_map, List.map_cons, List.head?_cons]
    simp
  · intro s hs
    rw [equalSegments] at hs
    obtain ⟨i, hi, rfl⟩ := List.mem_map.mp hs
    rw [List.mem_range] at hi
    dsimp only
    refine lt_min (by linarith) ?_
    have hiN : (i : ℚ) < (n.toNat : ℚ) := by exact_mod_cast hi
    calc (i : ℚ) * (d / (n : ℚ)) < (n.toNat : ℚ) * (d / (n : ℚ)) :=
          mul_lt_mul_of_pos_right hiN hL
      _ = d := hNd
  · rw [equalSegments, List.chain'_map, hm, List.chain'_range_succ]
    intro i hi
    dsimp only
    have hle : ((i : ℚ) + 1) * (d / (n : ℚ)) ≤ d := by
      have hc : ((i + 1 : ℕ) : ℚ) ≤ (n.toNat : ℚ) := by exact_mod_cast (by omega : i + 1 ≤ n.toNat)
      calc ((i : ℚ) + 1) * (d / (n : ℚ)) = ((i + 1 : ℕ) : ℚ) * (d / (n : ℚ)) := by push_cast; ring
        _ ≤ (n.toNat : ℚ) * (d / (n : ℚ)) := mul_le_mul_of_nonneg_right hc hL.le
        _ = d := hNd
    rw [min_eq_left (by linarith : (i : ℚ) * (d / (n : ℚ)) + d / (n : ℚ) ≤ d)]
    push_cast
    ring
  · rw [equalSegments, hm, List.range_succ, List.map_append, List.map_cons, List.map_nil,
      List.getLast?_concat]
    have hmN : ((m : ℚ) + 1) = (n.toNat : ℚ) := by exact_mod_cast congrArg (fun k : ℕ => (k : ℚ)) hm.symm
    dsimp only [Option.map_some']
    congr 1
    have : (m : ℚ) * (d / (n : ℚ)) + d / (n : ℚ) = d := by
      calc (m : ℚ) * (d / (n : ℚ)) + d / (n : ℚ) = ((m : ℚ) + 1) * (d / (n : ℚ)) := by ring
        _ = (n.toNat : ℚ) * (d / (n : ℚ)) := by rw [hmN]
        _ = d := hNd
    rw [this, min_self]

/-- The fixed-length plan is a contiguous partition of `[0, d]`. -/
theorem fixedSegments_partition (d len : ℚ) (hd : 0 < d) (hl : 0 < len) :
    contiguousPartition (fixedSegments d len) d := by
  have hx : 0 < d / len := div_pos hd hl
  have hcpos : 0 < ⌈d / len⌉ := Int.ceil_pos.mpr hx
  have hcastN : (((⌈d / len⌉).toNat : ℤ)) = ⌈d / len⌉ := by omega
  have hNQ : d / len ≤ ((⌈d / len⌉).toNat : ℚ) := by
    calc d / len ≤ ((⌈d / len⌉ : ℤ) : ℚ) := Int.le_ceil (d / len)
      _ = (((⌈d / len⌉).toNat : ℤ) : ℚ) := by rw [hcastN]
      _ = ((⌈d / len⌉).toNat : ℚ) := by push_cast; rfl
  have hdN : d ≤ ((⌈d / len⌉).toNat : ℚ) * len := (div_le_iff₀ hl).mp hNQ
  have hNm1 : ((⌈d / len⌉).toNat : ℚ) - 1 < d / len := by
    have hlt := Int.ceil_lt_add_one (d / len)
    have : (((⌈d / len⌉).toNat : ℤ) : ℚ) < d / len + 1 := by rw [hcastN]; exact hlt
    push_cast at this
    linarith
  obtain ⟨m, hm⟩ : ∃ m, (⌈d / len⌉).toNat = m + 1 := ⟨(⌈d / len⌉).toNat - 1, by omega⟩
  rw [fixedSegments_eq]
  refine ⟨?_, ?_, ?_, ?_⟩
  · rw [hm, List.range_succ_eq_map, List.map_cons, List.head?_cons]
    simp
  · intro s hs
    obtain ⟨i, hi, rfl⟩ := List.mem_map.mp hs
    rw [List.mem_range] at hi
    dsimp only
    refine lt_min (by linarith) ?_
    have hiQ : (i : ℚ) ≤ ((⌈d / len⌉).toNat : ℚ) - 1 := by
      have : ((i : ℕ) : ℚ) + 1 ≤ ((⌈d / len⌉).toNat : ℚ) := by exact_mod_cast hi
      linarith
    have : (i : ℚ) < d / len := lt_of_le_of_lt hiQ hNm1
    exact (lt_div_iff₀ hl).mp this
  · rw [List.chain'_map, hm, List.chain'_range_succ]
    intro i hi
    dsimp only
    have hi1 : ((i : ℚ) + 1) ≤ ((⌈d / len⌉).toNat : ℚ) - 1 := by
      have : ((i + 1 : ℕ) : ℚ) + 1 ≤ ((⌈d / len⌉).toNat : ℚ) := by
        exact_mod_cast (by omega : i + 1 + 1 ≤ (⌈d / len⌉).toNat)
      push_cast at this
      linarith
    have hlt : ((i : ℚ) + 1) * len < d := by
      have h1 : ((i : ℚ) + 1) < d / len := lt_of_le_of_lt hi1 hNm1
      exact (lt_div_iff₀ hl).mp h1
    rw [min_eq_left (by linarith : (i : ℚ) * len + len ≤ d)]
    push_cast
    ring
  · rw [hm, List.range_succ, List.map_append, List.map_cons, List.map_nil,
      List.getLast?_concat]
    have hmN : ((m : ℚ) + 1) = ((⌈d / len⌉).toNat : ℚ) := by
      exact_mod_cast congrArg (fun k : ℕ => (k : ℚ)) hm.symm
    dsimp only [Option.map_some']
    congr 1
    have hge : d ≤ (m : ℚ) * len + len := by
      calc d ≤ ((⌈d / len⌉).toNat : ℚ) * len := hdN
        _ = ((m : ℚ) + 1) * len := by rw [hmN]
        _ = (m : ℚ) * len + len := by ring
    exact min_eq_right hge

/-- Evaluation of one element of the fixed-length plan. -/
theorem fixedSegments_getElem (d len : ℚ) (i : ℕ) (hi : i < (fixedSegments d len).length) :
    (fixedSegments d len)[i] =
      { start := (i : ℚ) * len, «end» := min ((i : ℚ) * len + len) d } := by
  simp [fixedSegments, fixedFrom]

/-- Claim C1: for every duration greater than 0 and every integer count at
least 1, equal-parts planning returns exactly `count` segments, segment
`i` being `(i * (d/count), min (i * (d/count) + d/count, d))`; the
segments are monotonically increasing, contiguous, and the final end
equals the duration (exact arithmetic). -/
theorem c1_equal_parts (fuel : Nat) (d : ℚ) (n : ℤ) (hd : 0 < d) (hn : 1 ≤ n) :
    calcSegments fuel d "equal" (.int n) = some (.ok (.info (equalSegments d n))) ∧
    ((equalSegments d n).length : ℤ) = n ∧
    (∀ i : ℕ, ∀ hi : i < (equalSegments d n).length,
      (equalSegments d n)[i] =
        { start := (i : ℚ) * (d / (n : ℚ))
          «end» := min ((i : ℚ) * (d / (n : ℚ)) + d / (n : ℚ)) d }) ∧
    contiguousPartition (equalSegments d n) d := by
  refine ⟨calcSegments_equal_int fuel d n hd.ne' (by omega), ?_, ?_,
    equalSegments_partition d n hd hn⟩
  · simp only [equalSegments, List.length_map, List.length_range]
    omega
  · intro i hi
    simp [equalSegments]

/-- Witness for C1 at duration 10, count 2 (the specification's concrete
scenario 1). -/
theorem c1_equal_parts_witness :
    (0 : ℚ) < 10 ∧ (1 : ℤ) ≤ 2 ∧
    contiguousPartition (equalSegments 10 2) 10 ∧
    equalSegments 10 2 = [⟨0, 5⟩, ⟨5, 10⟩] := by
  refine ⟨by norm_num, by norm_num,
    (c1_equal_parts 0 10 2 (by norm_num) (by norm_num)).2.2.2, ?_⟩
  have h2 : (2 : ℤ).toNat = 2 := rfl
  rw [equalSegments, h2]
  simp only [List.range_succ, List.range_zero, List.map_append, List.map_cons, List.map_nil,
    List.nil_append, List.cons_append, Segment.mk.injEq, min_def]
  norm_num

/-- Claim C2: for duration > 0 and length > 0, fixed-length planning
returns `⌈duration/length⌉` segments; all but the last have length
exactly `length`; the last has length `duration - (N-1)*length` with
`0 < last ≤ length`; and if `length ≥ duration` the plan is the single
segment `(0, duration)`. -/
theorem c2_fixed_length (d len : ℚ) (hd : 0 < d) (hl : 0 < len) :
    (∀ fuel, (⌈d / len⌉).toNat < fuel →
      calcSegments fuel d "duration" (.float len) = some (.ok (.info (fixedSegments d len)))) ∧
    ((fixedSegments d len).length : ℤ) = ⌈d / len⌉ ∧
    (∀ i : ℕ, ∀ hi : i < (fixedSegments d len).length, i + 1 < (fixedSegments d len).length →
      ((fixedSegments d len)[i]).«end» - ((fixedSegments d len)[i]).start = len) ∧
    (∀ i : ℕ, ∀ hi : i < (fixedSegments d len).length, i + 1 = (fixedSegments d len).length →
      ((fixedSegments d len)[i]).«end» - ((fixedSegments d len)[i]).start =
          d - ((((fixedSegments d len).length - 1 : ℕ)) : ℚ) * len ∧
        0 < d - ((((fixedSegments d len).length - 1 : ℕ)) : ℚ) * len ∧
        d - ((((fixedSegments d len).length - 1 : ℕ)) : ℚ) * len ≤ len) ∧
    (len ≥ d → fixedSegments d len = [{ start := 0, «end» := d }]) := by
  have hx : 0 < d / len := div_pos hd hl
  have hcpos : 0 < ⌈d / len⌉ := Int.ceil_pos.mpr hx
  have hcastN : (((⌈d / len⌉).toNat : ℤ)) = ⌈d / len⌉ := by omega
  have hNQ : d / len ≤ ((⌈d / len⌉).toNat : ℚ) := by
    calc d / len ≤ ((⌈d / len⌉ : ℤ) : ℚ) := Int.le_ceil (d / len)
      _ = (((⌈d / len⌉).toNat : ℤ) : ℚ) := by rw [hcastN]
      _ = ((⌈d / len⌉).toNat : ℚ) := by push_cast; rfl
  have hdN : d ≤ ((⌈d / len⌉).toNat : ℚ) * len := (div_le_iff₀ hl).mp hNQ
  have hNm1 : ((⌈d / len⌉).toNat : ℚ) - 1 < d / len := by
    have hlt := Int.ceil_lt_add_one (d / len)
    have h2 : (((⌈d / len⌉).toNat : ℤ) : ℚ) < d / len + 1 := by rw [hcastN]; exact hlt
    push_cast at h2
    linarith
  have hlen : (fixedSegments d len).length = (⌈d / len⌉).toNat := by
    rw [fixedSegments_eq]
    simp
  refine ⟨?_, ?_, ?_, ?_, ?_⟩
  · intro fuel hfuel
    have hguard : ¬ (d = 0 ∨ ("duration" : String) = "" ∨ (Value.float len).isZero = true) := by
      push_neg
      exact ⟨hd.ne', by simp, by simp [Value.isZero, hl.ne']⟩
    rw [calcSegments, if_neg hguard, if_neg (by simp), if_pos rfl]
    have hloop : segLoop fuel 0 (Value.float len).toRat d = some (fixedFrom d len 0) := by
      show segLoop fuel 0 len d = _
      exact segLoop_eq d len hl fuel 0 (by simpa using hfuel)
    rw [hloop]
    rfl
  · rw [hlen]
    exact hcastN
  · intro i hi hnext
    rw [fixedSegments_getElem d len i hi]
    dsimp only
    rw [hlen] at hnext
    have hi1 : ((i : ℚ) + 1) ≤ ((⌈d / len⌉).toNat : ℚ) - 1 := by
      have hc : ((i + 1 : ℕ) : ℚ) + 1 ≤ ((⌈d / len⌉).toNat : ℚ) := by
        exact_mod_cast (by omega : i + 1 + 1 ≤ (⌈d / len⌉).toNat)
      push_cast at hc
      linarith
    have hlt : ((i : ℚ) + 1) * len < d := (lt_div_iff₀ hl).mp (lt_of_le_of_lt hi1 hNm1)
    rw [min_eq_left (by linarith : (i : ℚ) * len + len ≤ d)]
    ring
  · intro i hi hlast
    rw [fixedSegments_getElem d len i hi]
    dsimp only
    rw [hlen] at hlast
    have hiQ : ((i : ℚ) + 1) = ((⌈d / len⌉).toNat : ℚ) := by
      exact_mod_cast congrArg (fun k : ℕ => (k : ℚ)) hlast
    have hiN : (i : ℚ) ≤ ((⌈d / len⌉).toNat : ℚ) - 1 := by linarith
    have histrict : (i : ℚ) < d / len := lt_of_le_of_lt (le_of_eq (by linarith)) hNm1
    have hid : (i : ℚ) * len < d := (lt_div_iff₀ hl).mp histrict
    have hmin : min ((i : ℚ) * len + len) d = d := by
      refine min_eq_right ?_
      calc d ≤ ((⌈d / len⌉).toNat : ℚ) * len := hdN
        _ = ((i : ℚ) + 1) * len := by rw [hiQ]
        _ = (i : ℚ) * len + len := by ring
    have hcast2 : ((((fixedSegments d len).length - 1 : ℕ)) : ℚ) = (i : ℚ) := by
      rw [hlen]
      exact_mod_cast congrArg (fun k : ℕ => (k : ℚ)) (by omega : (⌈d / len⌉).toNat - 1 = i)
    rw [hmin, hcast2]
    refine ⟨rfl, by linarith, ?_⟩
    have : d ≤ (i : ℚ) * len + len := by
      calc d ≤ ((⌈d / len⌉).toNat : ℚ) * len := hdN
        _ = ((i : ℚ) + 1) * len := by rw [hiQ]
        _ = (i : ℚ) * len + len := by ring
    linarith
  · intro hdl
    have h1 : ⌈d / len⌉ = 1 := by
      have hle : ⌈d / len⌉ ≤ 1 := by
        apply Int.ceil_le.mpr
        push_cast
        rw [div_le_one hl]
        exact hdl
      omega
    rw [fixedSegments_eq, h1]
    have h1n : ((1 : ℤ)).toNat = 1 := rfl
    rw [h1n]
    simp only [List.range_succ, List.range_zero, List.nil_append, List.map_cons, List.map_nil,
      Nat.cast_zero, zero_mul, zero_add, List.cons.injEq, Segment.mk.injEq, and_true, true_and]
    exact min_eq_right hdl

/-- Witness for C2 at duration 10, length 4 (the specification's concrete
scenario 2). -/
theorem c2_fixed_length_witness :
    (0 : ℚ) < 10 ∧ (0 : ℚ) < 4 ∧
    calcSegments 4 10 "duration" (.float 4) = some (.ok (.info (fixedSegments 10 4))) ∧
    fixedSegments 10 4 = [⟨0, 4⟩, ⟨4, 8⟩, ⟨8, 10⟩] := by
  have hceil : ⌈(10 : ℚ) / 4⌉ = 3 := by
    rw [Int.ceil_eq_iff]
    norm_num
  refine ⟨by norm_num, by norm_num,
    (c2_fixed_length 10 4 (by norm_num) (by norm_num)).1 4 (by rw [hceil]; norm_num), ?_⟩
  rw [fixedSegments_eq, hceil]
  have h3 : ((3 : ℤ)).toNat = 3 := rfl
  rw [h3]
  simp only [List.range_succ, List.range_zero, List.map_append, List.map_cons, List.map_nil,
    List.nil_append, List.cons_append, Segment.mk.injEq, min_def]
  norm_num

/-- Claim C3: every successful planning result for a valid request on a
positive duration is a contiguous partition of `[0, duration]`: first
start 0, non-empty ordered segments, adjacent ends/starts equal, last end
equal to the duration. -/
theorem c3_partition (fuel : Nat) (d : ℚ) (m : String) (v : Value) (segs : List Segment)
    (hd : 0 < d) (hv : validRequest m v)
    (h : calcSegments fuel d m v = some (.ok (.info segs))) :
    contiguousPartition segs d := by
  rcases hv with ⟨hm, n, hvn, hn⟩ | ⟨hm, hpos⟩
  · subst hm
    subst hvn
    rw [calcSegments_equal_int fuel d n hd.ne' (by omega)] at h
    simp only [Option.some.injEq, Except.ok.injEq, Artifact.info.injEq] at h
    rw [← h]
    exact equalSegments_partition d n hd hn
  · subst hm
    have hguard : ¬ (d = 0 ∨ ("duration" : String) = "" ∨ v.isZero = true) := by
      push_neg
      exact ⟨hd.ne', by simp, by simp [Value.isZero_eq_false hpos]⟩
    rw [calcSegments.eq_def, if_neg hguard, if_neg (by simp), if_pos rfl] at h
    rcases hseg : segLoop fuel 0 v.toRat d with _ | segs2
    · rw [hseg] at h
      simp at h
    · rw [hseg] at h
      simp only [Option.some.injEq, Except.ok.injEq, Artifact.info.injEq] at h
      have h2 := segLoop_some_eq d v.toRat hpos fuel 0 segs2 hseg
      rw [← h, h2]
      exact fixedSegments_partition d v.toRat hd hpos

/-- Witness for C3 at duration 10, equal parts 2. -/
theorem c3_partition_witness :
    (0 : ℚ) < 10 ∧ validRequest "equal" (.int 2) ∧
    calcSegments 0 10 "equal" (.int 2) = some (.ok (.info (equalSegments 10 2))) ∧
    contiguousPartition (equalSegments 10 2) 10 := by
  have heval : calcSegments 0 10 "equal" (.int 2) = some (.ok (.info (equalSegments 10 2))) :=
    calcSegments_equal_int 0 10 2 (by norm_num) (by norm_num)
  exact ⟨by norm_num, Or.inl ⟨rfl, 2, rfl, by norm_num⟩, heval,
    c3_partition 0 10 "equal" (.int 2) (equalSegments 10 2) (by norm_num)
      (Or.inl ⟨rfl, 2, rfl, by norm_num⟩) heval⟩

/-- Counterexample for C4: a negative duration passes the Python
truthiness guard, so `calculate_segments(-5, "equal", 2)` returns a
success artifact with two (degenerate) segments instead of an error. -/
theorem c4_counterexample :
    calcSegments 0 (-5) "equal" (.int 2) =
      some (.ok (.info [{ start := 0, «end» := -5 }, { start := -(5 / 2), «end» := -5 }])) := by
  rw [calcSegments_equal_int 0 (-5) 2 (by norm_num) (by norm_num)]
  have h2 : (2 : ℤ).toNat = 2 := rfl
  rw [equalSegments, h2]
  simp only [List.range_succ, List.range_zero, List.map_append, List.map_cons, List.map_nil,
    List.nil_append, List.cons_append, Segment.mk.injEq, min_def]
  norm_num

/-- Claim C4 (amended): the truthiness guard rejects duration 0, count 0
and length 0 with the missing-inputs error, and an unsupported non-empty
method on otherwise truthy inputs yields the invalid-method error; but
negative durations and negative lengths are not rejected. -/
theorem c4_invalid_inputs (fuel : Nat) (d : ℚ) (m : String) (v : Value) :
    calcSegments fuel 0 m v = some (.ok (.error missingMsg)) ∧
    calcSegments fuel d m (.int 0) = some (.ok (.error missingMsg)) ∧
    calcSegments fuel d m (.float 0) = some (.ok (.error missingMsg)) ∧
    (d ≠ 0 → v.isZero = false → m ≠ "" → m ≠ "equal" → m ≠ "duration" →
      calcSegments fuel d m v = some (.ok (.error (invalidMethodMsg m)))) := by
  refine ⟨?_, ?_, ?_, ?_⟩
  · rw [calcSegments.eq_def, if_pos (Or.inl rfl)]
  · rw [calcSegments.eq_def, if_pos (Or.inr (Or.inr (by simp [Value.isZero])))]
  · rw [calcSegments.eq_def, if_pos (Or.inr (Or.inr (by simp [Value.isZero])))]
  · intro h1 h2 h3 h4 h5
    rw [calcSegments.eq_def, if_neg (by push_neg; exact ⟨h1, h3, by simp [h2]⟩), if_neg h4,
      if_neg h5]

/-- Witness for C4 (amended) at duration 7, an unsupported method
"chunks", and the zero-valued rejected inputs. -/
theorem c4_invalid_inputs_witness :
    calcSegments 0 0 "equal" (.int 3) = some (.ok (.error missingMsg)) ∧
    calcSegments 0 7 "equal" (.int 0) = some (.ok (.error missingMsg)) ∧
    calcSegments 0 7 "equal" (.float 0) = some (.ok (.error missingMsg)) ∧
    calcSegments 0 7 "chunks" (.int 3) = some (.ok (.error (invalidMethodMsg "chunks"))) := by
  have h0 := c4_invalid_inputs 0 7 "equal" (.int 3)
  have h1 := c4_invalid_inputs 0 7 "chunks" (.int 3)
  exact ⟨h0.1, h0.2.1, h0.2.2.1,
    h1.2.2.2 (by norm_num) (by simp [Value.isZero]) (by simp) (by simp) (by simp)⟩

/-- A non-positive step keeps the loop guard true forever: the loop never
returns, whatever the fuel. -/
theorem segLoop_none_of_nonpos (d len : ℚ) (hlen : len ≤ 0) :
    ∀ fuel s, s < d → segLoop fuel s len d = none := by
  intro fuel
  induction fuel with
  | zero => intro s _; rfl
  | succ fuel ih =>
    intro s hs
    rw [segLoop, if_pos hs, ih (s + len) (by linarith), Option.map_none']

/-- Claim C5 is violated by the code: with duration 5 and fixed length -1
(which passes the truthiness guard), the `while start < duration` loop
never terminates — the planner returns no result for any fuel. -/
theorem c5_negative_length_diverges : calcDiverges 5 "duration" (.float (-1)) := by
  intro fuel
  have hguard : ¬ ((5 : ℚ) = 0 ∨ ("duration" : String) = "" ∨
      (Value.float (-1)).isZero = true) := by
    push_neg
    exact ⟨by norm_num, by simp, by simp [Value.isZero]⟩
  rw [calcSegments, if_neg hguard, if_neg (by simp), if_pos rfl]
  have hloop : segLoop fuel 0 (Value.float (-1)).toRat 5 = none := by
    show segLoop fuel 0 (-1) 5 = none
    exact segLoop_none_of_nonpos 5 (-1) (by norm_num) fuel 0 (by norm_num)
  rw [hloop]

/-- Claim C5 (amended side): for every positive length the planner does
terminate, returning some result for sufficient fuel, for any duration. -/
theorem c5_positive_length_terminates (d : ℚ) (v : Value) (hv : 0 < v.toRat) :
    ∃ fuel r, calcSegments fuel d "duration" v = some r := by
  by_cases hd : d = 0
  · exact ⟨1, .ok (.error missingMsg), by rw [calcSegments.eq_def, if_pos (Or.inl hd)]⟩
  · refine ⟨(⌈d / v.toRat⌉).toNat + 1, .ok (.info (fixedSegments d v.toRat)), ?_⟩
    have hguard : ¬ (d = 0 ∨ ("duration" : String) = "" ∨ v.isZero = true) := by
      push_neg
      exact ⟨hd, by simp, by simp [Value.isZero_eq_false hv]⟩
    rw [calcSegments.eq_def, if_neg hguard, if_neg (by simp), if_pos rfl]
    have hloop : segLoop ((⌈d / v.toRat⌉).toNat + 1) 0 v.toRat d =
        some (fixedFrom d v.toRat 0) := by
      exact segLoop_eq d v.toRat hv _ 0 (by simp)
    rw [hloop]
    rfl

/-- Witness for the C5 termination side at duration 10, length 4. -/
theorem c5_positive_length_terminates_witness :
    (0 : ℚ) < (Value.float 4).toRat ∧
    ∃ fuel r, calcSegments fuel 10 "duration" (.float 4) = some r :=
  ⟨by norm_num [Value.toRat], c5_positive_length_terminates 10 (.float 4) (by norm_num [Value.toRat])⟩

/-- Claim C6 is violated by the code at both named inputs: planning with
method "equal" and the non-integer value 5/2 raises an uncaught
`TypeError` (Python `range` of a float), and audio extraction on an
existing file with no `output_name` raises an uncaught `AttributeError`
(`None.lower()`); neither call returns a structured artifact. -/
theorem c6_uncaught_exceptions :
    calcSegments 0 10 "equal" (.float (5 / 2)) = some (.error .typeError) ∧
    extractAudio ["clip.mp4"] "clip.mp4" none true 1 = some (.error .attributeError, 0) := by
  constructor
  · have hguard : ¬ ((10 : ℚ) = 0 ∨ ("equal" : String) = "" ∨
        (Value.float (5 / 2)).isZero = true) := by
      push_neg
      exact ⟨by norm_num, by simp, by simp [Value.isZero]⟩
    rw [calcSegments, if_neg hguard, if_pos rfl]
  · rfl

/-- Counterexample for C7: the per-segment ffmpeg invocation in
`split_video` is run without `check=True` and its exit status is ignored,
so a split whose only cut fails (exit oracle constantly false) is still
reported as a success. -/
theorem c7_counterexample :
    splitVideo ["clip.mp4"] "clip.mp4" [{ start := 0, «end» := 5 }] none (fun _ => false) =
      (.ok (.text "Clips successfully created: clip_segment.mp4"), 1) := by
  rfl

/-- Claim C7 (amended): audio extraction and the timecode overlay surface
a non-zero exit status as an error artifact, but `split_video` ignores
the exit status of every per-segment cut: its result does not depend on
the exit oracle and is a success text for any non-empty segment list. -/
theorem c7_exit_status (fs : List String) (mov : String) (nameOpt : Option String)
    (s : String) (fuel : Nat) (exits exits2 : Nat → Bool) (segs : List Segment)
    (r : Except PyExn Artifact × Nat) (h : mov ∈ fs) :
    splitVideo fs mov segs nameOpt exits = splitVideo fs mov segs nameOpt exits2 ∧
    (segs ≠ [] → ∃ msg, (splitVideo fs mov segs nameOpt exits).1 = .ok (.text msg)) ∧
    (extractAudio fs mov (some s) false fuel = some r → r.1 = .ok (.error audioFailMsg)) ∧
    addTimecodeOverlay fs mov nameOpt false = (.ok (.error overlayFailMsg), 1) := by
  refine ⟨rfl, ?_, ?_, ?_⟩
  · intro hne
    simp only [splitVideo]
    rw [if_neg (not_not_intro h), if_neg hne]
    exact ⟨_, rfl⟩
  · intro hex
    rw [extractAudio.eq_def, if_neg (not_not_intro h)] at hex
    dsimp only at hex
    rcases hstrip : stripLoop fuel s with _ | name2
    · rw [hstrip] at hex
      simp at hex
    · rw [hstrip] at hex
      dsimp only at hex
      rw [if_neg Bool.false_ne_true] at hex
      rw [← Option.some.inj hex]
  · rw [addTimecodeOverlay.eq_def, if_neg (not_not_intro h)]
    simp

/-- Witness for C7 (amended) on the one-file filesystem. -/
theorem c7_exit_status_witness :
    splitVideo ["clip.mp4"] "clip.mp4" [{ start := 0, «end» := 5 }] none (fun _ => false) =
      splitVideo ["clip.mp4"] "clip.mp4" [{ start := 0, «end» := 5 }] none (fun _ => true) ∧
    addTimecodeOverlay ["clip.mp4"] "clip.mp4" none false =
      (.ok (.error overlayFailMsg), 1) := by
  have h := c7_exit_status ["clip.mp4"] "clip.mp4" none "audio" 2 (fun _ => false)
    (fun _ => true) [{ start := 0, «end» := 5 }]
    (.ok (.error audioFailMsg), 1) (by simp)
  exact ⟨h.1, h.2.2.2⟩

/-- Claim C8: every operation that takes a source path checks existence
first: on a missing source each tool returns the file-not-found error
artifact and runs zero subprocesses, whatever the other inputs. -/
theorem c8_missing_source (fs : List String) (mov : String) (probe : Option ℚ)
    (segs : List Segment) (nameOpt : Option String) (exits : Nat → Bool)
    (exitOk : Bool) (fuel : Nat) (h : mov ∉ fs) :
    getVideoInfo fs mov probe = (.ok (.error ("File not found: " ++ mov)), 0) ∧
    splitVideo fs mov segs nameOpt exits =
      (.ok (.error ("Error: File not found: " ++ mov)), 0) ∧
    extractAudio fs mov nameOpt exitOk fuel =
      some (.ok (.error ("Error: File not found: " ++ mov)), 0) ∧
    addTimecodeOverlay fs mov nameOpt exitOk =
      (.ok (.error ("Error: File not found: " ++ mov)), 0) := by
  refine ⟨?_, ?_, ?_, ?_⟩
  · rw [getVideoInfo.eq_def, if_neg h]
  · simp only [splitVideo]
    rw [if_pos h]
  · rw [extractAudio.eq_def, if_pos h]
  · rw [addTimecodeOverlay.eq_def, if_pos h]

/-- Witness for C8 on the empty filesystem. -/
theorem c8_missing_source_witness :
    getVideoInfo [] "clip.mp4" none = (.ok (.error "File not found: clip.mp4"), 0) ∧
    extractAudio [] "clip.mp4" (some "audio") true 1 =
      some (.ok (.error "Error: File not found: clip.mp4"), 0) := by
  have h := c8_missing_source [] "clip.mp4" none [] (some "audio") (fun _ => true) true 1
    (by simp)
  exact ⟨h.1, h.2.2.1⟩

/-- The cleanup loop never terminates on the name ".mp3": `splitext`
treats the leading dot as part of the root, so the name never changes
while still ending in ".mp3". -/
theorem stripLoop_dotmp3 : ∀ fuel, stripLoop fuel ".mp3" = none := by
  intro fuel
  induction fuel with
  | zero => rfl
  | succ fuel ih =>
    rw [stripLoop, if_pos (by decide)]
    have hroot : (pySplitExt ".mp3").1 = ".mp3" := by decide
    rw [hroot, ih]

/-- Claim C9 is violated by the code: the extension-stripping loop of
`extract_audio` diverges on the requested name ".mp3" (its `splitext`
root is itself), so that call never returns; the specification scenario
(source clip.mp4, requested name "audio.mp3") does produce destination
audio.mp3 rather than audio.mp3.mp3. -/
theorem c9_extension_strip :
    (∀ fuel, extractAudio ["clip.mp4"] "clip.mp4" (some ".mp3") true fuel = none) ∧
    extractAudio ["clip.mp4"] "clip.mp4" (some "audio.mp3") true 2 =
      some (.ok (.text "Audio successfully extracted: audio.mp3"), 1) := by
  constructor
  · intro fuel
    rw [extractAudio.eq_def, if_neg (by decide)]
    dsimp only
    rw [stripLoop_dotmp3 fuel]
  · rfl

/-- Claim C10: for a multi-segment split each output path carries the
1-based two-digit sequence suffix before the extension, and a
single-segment split carries none; the success message lists exactly
those derived paths. -/
theorem c10_sequence_suffix (fs : List String) (mov : String) (segs : List Segment)
    (nameOpt : Option String) (exits : Nat → Bool) (h : mov ∈ fs) (hne : segs ≠ []) :
    splitVideo fs mov segs nameOpt exits =
      (.ok (.text ("Clips successfully created: " ++ String.intercalate ", "
        ((List.range segs.length).map fun k : ℕ =>
          pyJoin (pySplit (pySplitExt mov).1).1
            ((pySplit (pySplitExt mov).1).2 ++ "_" ++ nameOpt.getD "segment" ++
              (if segs.length > 1 then "_" ++ pad2 (k + 1) ++ (pySplitExt mov).2
               else (pySplitExt mov).2))))),
        segs.length) := by
  simp only [splitVideo]
  rw [if_neg (not_not_intro h), if_neg hne]

/-- Witness for C10: the specification scenario (clip.mp4, three
segments, default token "segment") and the single-segment case. -/
theorem c10_sequence_suffix_witness :
    splitVideo ["clip.mp4"] "clip.mp4" [⟨0, 1⟩, ⟨1, 2⟩, ⟨2, 3⟩] none (fun _ => true) =
      (.ok (.text
        "Clips successfully created: clip_segment_01.mp4, clip_segment_02.mp4, clip_segment_03.mp4"),
        3) ∧
    splitVideo ["clip.mp4"] "clip.mp4" [⟨0, 3⟩] none (fun _ => true) =
      (.ok (.text "Clips successfully created: clip_segment.mp4"), 1) := by
  constructor
  · exact (c10_sequence_suffix ["clip.mp4"] "clip.mp4" [⟨0, 1⟩, ⟨1, 2⟩, ⟨2, 3⟩] none
      (fun _ => true) (by simp) (by simp)).trans (by rfl)
  · exact (c10_sequence_suffix ["clip.mp4"] "clip.mp4" [⟨0, 3⟩] none
      (fun _ => true) (by simp) (by simp)).trans (by rfl)
